import Mathlib

/-!
Verification of the pathfinding and mining-planner core of the azalea-rs
bot framework, against its natural-language specification.

Conventions of the shallow embedding:
* Rust `i32` coordinates are modelled as `ℤ` (the programs under scrutiny
  operate far from overflow).
* Rust `f32` quantities (costs, weights, reach radii) are modelled as exact
  rationals `ℚ`; an `f32` square root compared against a bound `m` is
  modelled by the exact equivalent `0 ≤ m ∧ d ≤ m²` (justified by the
  lemma `sqrt_le_test_iff` below).  Divisions by zero that produce `+∞`
  in `f32` are modelled with `WithTop ℚ` or flagged where they occur.
* Rust `Instant`/`Duration` are modelled as rational time stamps.
* External crates (`azalea_block`, `azalea_core`, `azalea_world`,
  `azalea_inventory`) are modelled as abstract data with exactly the fields
  and accessors the code under `src/` consumes.
-/

namespace Azalea

/-- Integer block position, mirroring `BlockPos` (and `RelBlockPos`, which is
the same data against a plan-local origin). -/
structure Pos3 where
  x : ℤ
  y : ℤ
  z : ℤ
deriving DecidableEq, Repr

/-- Squared Euclidean distance between two positions, mirroring
`BlockPos::distance_squared_to` and the inline `dx*dx + dy*dy + dz*dz`
computations in the source. -/
def Pos3.d2 (a b : Pos3) : ℤ :=
  (a.x - b.x) ^ 2 + (a.y - b.y) ^ 2 + (a.z - b.z) ^ 2

/-- Manhattan distance, mirroring `dx.abs() + dy.abs() + dz.abs()` in
`world_scanner.rs`. -/
def Pos3.manhattan (a b : Pos3) : ℤ :=
  |a.x - b.x| + |a.y - b.y| + |a.z - b.z|

def Pos3.up (p : Pos3) (n : ℤ) : Pos3 := ⟨p.x, p.y + n, p.z⟩

def Pos3.down (p : Pos3) (n : ℤ) : Pos3 := ⟨p.x, p.y - n, p.z⟩

def Pos3.add (a b : Pos3) : Pos3 := ⟨a.x + b.x, a.y + b.y, a.z + b.z⟩

lemma Pos3.d2_nonneg (a b : Pos3) : 0 ≤ a.d2 b := by
  have hx := sq_nonneg (a.x - b.x)
  have hy := sq_nonneg (a.y - b.y)
  have hz := sq_nonneg (a.z - b.z)
  unfold Pos3.d2
  omega

/-- Exact model of the `f32` test `(d as f32).sqrt() <= m` for an
integer `d`: taking the square root and comparing against `m` is equivalent
to `0 ≤ m ∧ d ≤ m²`. -/
lemma sqrt_le_test_iff (d : ℤ) (m : ℚ) :
    Real.sqrt (d : ℝ) ≤ (m : ℝ) ↔ (0 ≤ m ∧ (d : ℚ) ≤ m ^ 2) := by
  rw [Real.sqrt_le_iff]
  constructor
  · rintro ⟨h1, h2⟩
    refine ⟨by exact_mod_cast h1, ?_⟩
    exact_mod_cast h2
  · rintro ⟨h1, h2⟩
    exact ⟨by exact_mod_cast h1, by exact_mod_cast h2⟩

/-! ## Constants from `costs.rs`, as exact rationals -/

def WALK_ONE_BLOCK_COST : ℚ := 20 / (4317 / 1000)
def SPRINT_ONE_BLOCK_COST : ℚ := 20 / (5612 / 1000)
def JUMP_PENALTY : ℚ := 2
def BLOCK_BREAK_ADDITIONAL_PENALTY : ℚ := 2
def WATER_WALK_COST : ℚ := WALK_ONE_BLOCK_COST * (11 / 10)
def SWIMMING_COST : ℚ := WALK_ONE_BLOCK_COST * (18 / 10)
def WATER_ASCENT_COST : ℚ := SWIMMING_COST * (13 / 10)
def WATER_DESCENT_COST : ℚ := SWIMMING_COST * (9 / 10)
def SPRINT_SWIMMING_COST : ℚ := WALK_ONE_BLOCK_COST * (15 / 10)
def FLOW_RESISTANCE_COST : ℚ := SWIMMING_COST * (2 / 10)
def WATER_ENTRY_COST : ℚ := 2
def WATER_EXIT_COST : ℚ := 3 / 2
def AIR_DEPLETION_PENALTY : ℚ := 10
def DROWNING_AVOIDANCE_COST : ℚ := 50

/-! ## C1: the precomputed fall-cost table of `costs.rs`

`velocity`, `distance_to_ticks` and the initializer loop of
`FALL_N_BLOCKS_COST` are embedded one-to-one.  Loops are given explicit
fuel; the source loops terminate, and the theorems below only depend on
prefixes of the iteration that are reached well inside the fuel bound. -/

/-- Mirrors `fn velocity(ticks: usize) -> f32`:
`(0.98.powi(ticks) - 1.) * -3.92`. -/
def velocity (ticks : ℕ) : ℚ :=
  ((49 / 50 : ℚ) ^ ticks - 1) * (-(392 / 100))

/-- Loop body of `fn distance_to_ticks`, with fuel.  Returns `none` only on
fuel exhaustion (the source loop always terminates). -/
def distanceToTicksAux : ℕ → ℚ → ℕ → Option ℚ
  | 0, _, _ => none
  | fuel + 1, temp_distance, tick_count =>
    let fall_distance := velocity tick_count
    if temp_distance ≤ fall_distance then
      some ((tick_count : ℚ) + temp_distance / fall_distance)
    else
      distanceToTicksAux fuel (temp_distance - fall_distance) (tick_count + 1)

/-- Mirrors `fn distance_to_ticks(distance: f32) -> f32` including its
explicit `distance == 0` guard. -/
def distance_to_ticks (distance : ℚ) : Option ℚ :=
  if distance = 0 then some 0
  else distanceToTicksAux 6000 distance 0

/-- Mutable state of the `FALL_N_BLOCKS_COST` initializer loop:
the array (as a map from index to value), `distance`, `temp_distance`
and `tick_count`. -/
structure FallState where
  arr : ℕ → ℚ
  distance : ℕ
  temp_distance : ℚ
  tick_count : ℕ

/-- One-to-one embedding of the `loop` in the `FALL_N_BLOCKS_COST`
initializer (`costs.rs` lines 50-61), with fuel.  Note the source loop does
not reset or increment `temp_distance` when `distance` is incremented; this
embedding reproduces that faithfully.  In `f32` the `0.0 / 0.0` at
`tick_count = 0` is NaN where `ℚ` gives `0`; entry `0` of the table is
outside every claim. -/
def fallRun : ℕ → FallState → FallState
  | 0, s => s
  | fuel + 1, s =>
    let fall_distance := velocity s.tick_count
    if s.temp_distance ≤ fall_distance then
      let arr := Function.update s.arr s.distance
        ((s.tick_count : ℚ) + s.temp_distance / fall_distance)
      let distance := s.distance + 1
      if 4097 ≤ distance then
        { s with arr := arr, distance := distance }
      else
        fallRun fuel
          { arr := arr, distance := distance,
            temp_distance := s.temp_distance - fall_distance,
            tick_count := s.tick_count + 1 }
    else
      fallRun fuel
        { s with temp_distance := s.temp_distance - fall_distance,
                 tick_count := s.tick_count + 1 }

/-- The initial state: a zero-filled array, `distance = 0`,
`temp_distance = distance as f32 = 0`, `tick_count = 0`. -/
def fallInit : FallState :=
  { arr := fun _ => 0, distance := 0, temp_distance := 0, tick_count := 0 }

/-- The precomputed table `FALL_N_BLOCKS_COST`, read at an index. -/
def FALL_N_BLOCKS_COST (n : ℕ) : ℚ :=
  (fallRun 6000 fallInit).arr n

/-- Once the loop has moved past index 1 (`distance ≥ 2`), later iterations
never write to index 1 again. -/
lemma fallRun_arr_one_stable :
    ∀ (fuel : ℕ) (s : FallState), 2 ≤ s.distance →
      (fallRun fuel s).arr 1 = s.arr 1 := by
  intro fuel
  induction fuel with
  | zero => intro s _; rfl
  | succ n ih =>
    intro s hs
    show (fallRun (n + 1) s).arr 1 = s.arr 1
    rw [fallRun]
    by_cases h : s.temp_distance ≤ velocity s.tick_count
    · rw [if_pos h]
      by_cases h2 : 4097 ≤ s.distance + 1
      · rw [if_pos h2]
        simp only
        rw [Function.update_noteq (by omega)]
      · rw [if_neg h2]
        rw [ih _ (by simp only; omega)]
        simp only
        rw [Function.update_noteq (by omega)]
    · rw [if_neg h]
      exact ih _ (by simpa using hs)

/-- Unfolding step of `distanceToTicksAux` when the loop continues. -/
lemma dttAux_step (fuel : ℕ) (hf : fuel ≠ 0) (temp tick : _)
    (h : ¬ temp ≤ velocity tick) :
    distanceToTicksAux fuel temp tick =
      distanceToTicksAux (fuel - 1) (temp - velocity tick) (tick + 1) := by
  cases fuel with
  | zero => exact absurd rfl hf
  | succ n =>
    rw [distanceToTicksAux, if_neg h]
    rfl

/-- Unfolding step of `distanceToTicksAux` when the loop returns. -/
lemma dttAux_done (fuel : ℕ) (hf : fuel ≠ 0) (temp tick : _)
    (h : temp ≤ velocity tick) :
    distanceToTicksAux fuel temp tick =
      some ((tick : ℚ) + temp / velocity tick) := by
  cases fuel with
  | zero => exact absurd rfl hf
  | succ n => rw [distanceToTicksAux, if_pos h]

/-- Unfolding step of `fallRun` in the (always-taken) record branch when the
table is not yet full. -/
lemma fallRun_step (fuel : ℕ) (hf : fuel ≠ 0) (s : FallState)
    (h : s.temp_distance ≤ velocity s.tick_count)
    (h2 : ¬ 4097 ≤ s.distance + 1) :
    fallRun fuel s = fallRun (fuel - 1)
      { arr := Function.update s.arr s.distance
          ((s.tick_count : ℚ) + s.temp_distance / velocity s.tick_count),
        distance := s.distance + 1,
        temp_distance := s.temp_distance - velocity s.tick_count,
        tick_count := s.tick_count + 1 } := by
  cases fuel with
  | zero => exact absurd rfl hf
  | succ n =>
    rw [fallRun, if_pos h, if_neg h2]
    rfl

/-- The table entry at index 1 is exactly `1` tick: the initializer records
one entry per loop iteration because `temp_distance` is never replenished,
so entry 1 is written at `tick_count = 1` with `temp_distance = 0`. -/
lemma fall_table_one : FALL_N_BLOCKS_COST 1 = 1 := by
  unfold FALL_N_BLOCKS_COST
  rw [fallRun_step 6000 (by norm_num) fallInit
      (by norm_num [fallInit, velocity]) (by norm_num [fallInit])]
  rw [fallRun_step 5999 (by norm_num) _
      (by norm_num [fallInit, velocity]) (by norm_num [fallInit])]
  rw [fallRun_arr_one_stable 5998 _ (by norm_num [fallInit])]
  simp only [fallInit]
  rw [Function.update_same]
  norm_num [velocity]

/-- Direct integration: `distance_to_ticks(1)` needs 5 whole ticks plus a
fraction, so it is far from `1`. -/
lemma distance_to_ticks_one :
    distance_to_ticks 1 = some (8260453945 / 1471212799) := by
  rw [distance_to_ticks, if_neg one_ne_zero]
  rw [dttAux_step 6000 (by norm_num) 1 0 (by norm_num [velocity])]
  norm_num [velocity]
  rw [dttAux_step 5999 (by norm_num) 1 1 (by norm_num [velocity])]
  norm_num [velocity]
  rw [dttAux_step 5998 (by norm_num) (576 / 625) 2 (by norm_num [velocity])]
  norm_num [velocity]
  rw [dttAux_step 5997 (by norm_num) (23949 / 31250) 3 (by norm_num [velocity])]
  norm_num [velocity]
  rw [dttAux_step 5996 (by norm_num) (837251 / 1562500) 4 (by norm_num [velocity])]
  norm_num [velocity]
  rw [dttAux_done 5995 (by norm_num) (18087799 / 78125000) 5 (by norm_num [velocity])]
  norm_num [velocity]

/-- C1: the claim states `FALL_N_BLOCKS_COST[N] = distance_to_ticks(N)` for
every `N` in `1..=4096`.  This fails already at `N = 1`: the initializer
loop of `FALL_N_BLOCKS_COST` never replenishes `temp_distance` when it
advances `distance`, so it records one (meaningless) entry per tick;
entry 1 is `1.0` while the direct integration `distance_to_ticks(1)`
returns `≈ 5.615` ticks.  The code contradicts its own comment that the
loop "is the same as calling distance_to_ticks a bunch of times". -/
theorem fall_table_entry_one_ne_distance_to_ticks :
    FALL_N_BLOCKS_COST 1 = 1 ∧
      distance_to_ticks 1 ≠ some (FALL_N_BLOCKS_COST 1) := by
  refine ⟨fall_table_one, ?_⟩
  rw [fall_table_one, distance_to_ticks_one]
  intro h
  have := Option.some.inj h
  norm_num at this

/-! ## C2: `MiningCache::cost_for` (`mining.rs`)

The inventory menu and the tool interface `best_tool_in_hotbar_for_block`
are external collaborators; they are modelled as an `Option Unit` (only the
presence of the menu is consumed) and as an arbitrary function from block
states to tool results.  The per-`BlockState` memoisation cache returns the
previously computed value of the same pure computation, so the embedding is
the single-call function.  Costs are `WithTop ℚ`: the `f32` division
`1. / 0.` is `+∞`, modelled as `⊤`. -/

/-- Result of `best_tool_in_hotbar_for_block`: a hotbar index and the mining
progress percentage per tick. -/
structure BestToolResult where
  index : ℕ
  percentage_per_tick : ℚ

/-- Mirrors `MiningCache::cost_for`: `+∞` when there is no inventory menu,
otherwise `1 / percentage_per_tick + BLOCK_BREAK_ADDITIONAL_PENALTY`, where
the `f32` division yields `+∞` for a zero percentage. -/
def cost_for (inventory_menu : Option Unit)
    (best_tool : ℕ → BestToolResult) (block : ℕ) : WithTop ℚ :=
  match inventory_menu with
  | none => ⊤
  | some _ =>
    let r := best_tool block
    (if r.percentage_per_tick = 0 then (⊤ : WithTop ℚ)
     else ((1 / r.percentage_per_tick : ℚ) : WithTop ℚ)) +
      ((BLOCK_BREAK_ADDITIONAL_PENALTY : ℚ) : WithTop ℚ)

/-- C2: for every block state, under the precondition that the tool
interface reports a nonnegative `percentage_per_tick`, `cost_for` returns
either `+∞` (no tool, including the no-inventory-menu case) or a value
`≥ BLOCK_BREAK_ADDITIONAL_PENALTY = 2`. -/
theorem cost_for_top_or_ge_penalty (inventory_menu : Option Unit)
    (best_tool : ℕ → BestToolResult) (block : ℕ)
    (hp : 0 ≤ (best_tool block).percentage_per_tick) :
    cost_for inventory_menu best_tool block = ⊤ ∨
      ((BLOCK_BREAK_ADDITIONAL_PENALTY : ℚ) : WithTop ℚ) ≤
        cost_for inventory_menu best_tool block := by
  cases inventory_menu with
  | none => exact Or.inl rfl
  | some u =>
    have hred : cost_for (some u) best_tool block =
        (if (best_tool block).percentage_per_tick = 0 then (⊤ : WithTop ℚ)
         else ((1 / (best_tool block).percentage_per_tick : ℚ) : WithTop ℚ)) +
          ((BLOCK_BREAK_ADDITIONAL_PENALTY : ℚ) : WithTop ℚ) := rfl
    rw [hred]
    by_cases h : (best_tool block).percentage_per_tick = 0
    · rw [if_pos h]
      exact Or.inl (top_add _)
    · rw [if_neg h]
      right
      rw [← WithTop.coe_add, WithTop.coe_le_coe]
      have hpos : 0 < (best_tool block).percentage_per_tick :=
        lt_of_le_of_ne hp (Ne.symm h)
      have : (0 : ℚ) ≤ 1 / (best_tool block).percentage_per_tick :=
        le_of_lt (by positivity)
      linarith

/-- Witness for C2 at a concrete tool interface: a pickaxe mining 1% per
tick gives cost `1 / (1/100) + 2 = 102 ≥ 2`. -/
theorem cost_for_top_or_ge_penalty_witness :
    (0 : ℚ) ≤ (1 / 100 : ℚ) ∧
      (cost_for (some ()) (fun _ => ⟨0, 1 / 100⟩) 7 = ⊤ ∨
        ((BLOCK_BREAK_ADDITIONAL_PENALTY : ℚ) : WithTop ℚ) ≤
          cost_for (some ()) (fun _ => ⟨0, 1 / 100⟩) 7) :=
  ⟨by norm_num,
    cost_for_top_or_ge_penalty (some ()) (fun _ => ⟨0, 1 / 100⟩) 7
      (by norm_num)⟩

/-! ## Block-state and water model

`azalea_block`/`azalea_registry` are external; a block state is modelled by
exactly the accessors consumed by the pathfinder sources: the registry
block it maps to, the `WaterLevel` and `Waterlogged` properties, `is_air`,
and `is_block_state_passable` (the latter lives in `pathfinder/world.rs`,
which is not part of the examined sources; it is modelled from the spec as
the abstract passability predicate `is_passable (no collision)`). -/

inductive RegistryBlock where
  | water
  | lava
  | seagrass
  | tallSeagrass
  | kelp
  | kelpPlant
  | stone
deriving DecidableEq, Repr

structure BlockState where
  block : RegistryBlock
  waterLevel : Option ℕ
  waterlogged : Option Bool
  is_air : Bool
  passable : Bool
deriving DecidableEq, Repr

/-- A world is a map from positions to block states; this models
`ctx.world.get_block_state` over the per-plan consistent snapshot. -/
def World : Type := Pos3 → BlockState

/-- Types of water navigation scenarios (`moves/water.rs`). -/
inductive WaterType where
  | stillWater
  | flowingWater
  | waterlogged
  | dangerous
deriving DecidableEq, Repr

/-- Mirrors `classify_water` of `moves/water.rs`. -/
def classify_water (b : BlockState) : Option WaterType :=
  if b.block = .water then
    match b.waterLevel with
    | some 0 => some .stillWater
    | some _ => some .flowingWater
    | none => some .stillWater
  else if b.waterlogged.getD false then
    some .waterlogged
  else if b.block = .seagrass ∨ b.block = .tallSeagrass ∨
      b.block = .kelp ∨ b.block = .kelpPlant then
    some .stillWater
  else
    none

/-- Mirrors `is_water_navigable` of `moves/water.rs`. -/
def is_water_navigable (t : WaterType) : Bool :=
  match t with
  | .stillWater | .waterlogged => true
  | .flowingWater => false
  | .dangerous => false

/-- The four cardinal directions of `azalea_core`, with their x/z offsets. -/
inductive CardinalDirection where
  | north
  | east
  | south
  | west
deriving DecidableEq, Repr

def CardinalDirection.dx : CardinalDirection → ℤ
  | .north => 0 | .east => 1 | .south => 0 | .west => -1

def CardinalDirection.dz : CardinalDirection → ℤ
  | .north => -1 | .east => 0 | .south => 1 | .west => 0

def cardinalDirections : List CardinalDirection :=
  [.north, .east, .south, .west]

/-- Mirrors `is_water_safe` of `moves/water.rs`: false iff lava is in one of
the four cardinal neighbours or directly above or below. -/
def is_water_safe (w : World) (pos : Pos3) : Bool :=
  (cardinalDirections.all fun dir =>
    !((w (pos.add ⟨dir.dx, 0, dir.dz⟩)).block = .lava)) &&
  !((w (pos.up 1)).block = .lava) && !((w (pos.down 1)).block = .lava)

/-- Swimming state of `moves/water.rs`. -/
structure SwimmingState where
  consecutive_swim_moves : ℕ
  estimated_air : ℤ
  is_sprint_swimming : Bool
deriving DecidableEq, Repr

/-- The `Default` impl: no consecutive moves, 300 ticks of air. -/
def swimmingDefault : SwimmingState :=
  { consecutive_swim_moves := 0, estimated_air := 300,
    is_sprint_swimming := false }

/-- Mirrors `calculate_swimming_cost` of `moves/water.rs`. -/
def calculate_swimming_cost (w : World) (current_pos target_pos : Pos3)
    (st : SwimmingState) : ℚ :=
  let current_submerged := (classify_water (w (current_pos.up 1))).isSome
  let target_submerged := (classify_water (w (target_pos.up 1))).isSome
  let base0 : ℚ :=
    if current_submerged ∧ target_submerged ∧ 3 ≤ st.consecutive_swim_moves
    then SPRINT_SWIMMING_COST else SWIMMING_COST
  let airFrac : ℚ := (st.estimated_air : ℚ) / 300
  let base1 : ℚ :=
    if airFrac < 3 / 10
    then base0 + AIR_DEPLETION_PENALTY * (1 - airFrac) ^ 2 else base0
  if st.estimated_air ≤ 20 then base1 + DROWNING_AVOIDANCE_COST else base1

/-! Embedding of the second, "advanced" cost path in `water.rs`. -/

/-- Mirrors `is_traversable_water` of `water.rs`. -/
def is_traversable_water (b : BlockState) : Bool := b.block = .water

inductive WaterMovementType where
  | none
  | walkThrough
  | swimming
  | floating
deriving DecidableEq, Repr

inductive VerticalDirection where
  | level
  | ascending
  | descending
deriving DecidableEq, Repr

/-- The advanced water traversal context of `water.rs`.  `air_remaining` is
a fraction in `0..=1` (1 = full air), per the source comment. -/
structure WaterTraversalContext where
  movement_type : WaterMovementType
  is_flowing : Bool
  vertical_direction : VerticalDirection
  consecutive_swim_moves : ℕ
  air_remaining : ℚ
  is_entering_water : Bool
  is_exiting_water : Bool
  water_depth : ℕ
deriving DecidableEq, Repr

/-- Mirrors `calculate_advanced_water_cost` of `water.rs`. -/
def calculate_advanced_water_cost (w : World) (from_pos to_pos : Pos3)
    (ctx : WaterTraversalContext) : ℚ :=
  let block := w to_pos
  if ¬ is_traversable_water block then
    if ctx.is_exiting_water then WATER_EXIT_COST else 0
  else
    let cost0 : ℚ :=
      match ctx.movement_type with
      | .none => 0
      | .walkThrough => WATER_WALK_COST
      | .swimming =>
        if 3 ≤ ctx.consecutive_swim_moves then SPRINT_SWIMMING_COST
        else SWIMMING_COST
      | .floating => SWIMMING_COST
    let cost1 : ℚ :=
      match ctx.vertical_direction with
      | .ascending => WATER_ASCENT_COST
      | .descending => WATER_DESCENT_COST
      | .level => cost0
    let cost2 : ℚ :=
      if ctx.is_flowing then cost1 + FLOW_RESISTANCE_COST else cost1
    let cost3 : ℚ :=
      if ctx.is_entering_water then cost2 + WATER_ENTRY_COST else cost2
    let cost4 : ℚ :=
      if ctx.air_remaining < 3 / 10
      then cost3 + AIR_DEPLETION_PENALTY * (1 - ctx.air_remaining) else cost3
    let cost5 : ℚ :=
      if ctx.air_remaining < 1 / 10
      then cost4 + DROWNING_AVOIDANCE_COST else cost4
    if 15 < ctx.water_depth then cost5 * (12 / 10) else cost5

/-- A still-water source block. -/
def waterSource : BlockState :=
  { block := .water, waterLevel := some 0, waterlogged := none,
    is_air := false, passable := true }

/-- A plain solid stone block. -/
def stoneBlock : BlockState :=
  { block := .stone, waterLevel := none, waterlogged := none,
    is_air := false, passable := false }

/-- An air block. -/
def airBlock : BlockState :=
  { block := .stone, waterLevel := none, waterlogged := none,
    is_air := true, passable := true }

/-- An all-water world, used for concrete inputs. -/
def allWaterWorld : World := fun _ => waterSource

/-- Concrete advanced-cost context: swimming on the level with
`air_remaining = 0.2` (60 ticks of the 300-tick supply). -/
def c3Ctx : WaterTraversalContext :=
  { movement_type := .swimming, is_flowing := false,
    vertical_direction := .level, consecutive_swim_moves := 0,
    air_remaining := 2 / 10, is_entering_water := false,
    is_exiting_water := false, water_depth := 0 }

/-- C3 counterexample: in `calculate_advanced_water_cost` the low-air
penalty is `AIR_DEPLETION_PENALTY * (1 - air)`, not the claimed
`AIR_DEPLETION_PENALTY * (1 - air)²`.  At `air_remaining = 0.2`
(60 estimated air ticks, so the claimed drowning addend is 0) the computed
cost is `SWIMMING_COST + 8`, while the claim predicts
`SWIMMING_COST + 10 * 0.8² = SWIMMING_COST + 6.4`. -/
theorem advanced_cost_penalty_not_squared :
    calculate_advanced_water_cost allWaterWorld ⟨0, 0, 0⟩ ⟨0, 0, 0⟩ c3Ctx ≠
      calculate_advanced_water_cost allWaterWorld ⟨0, 0, 0⟩ ⟨0, 0, 0⟩
          { c3Ctx with air_remaining := 1 } +
        AIR_DEPLETION_PENALTY * (1 - c3Ctx.air_remaining) ^ 2 := by
  norm_num [calculate_advanced_water_cost, c3Ctx, allWaterWorld,
    waterSource, is_traversable_water, AIR_DEPLETION_PENALTY,
    SWIMMING_COST, WALK_ONE_BLOCK_COST]

/-- C3 amended: the air penalties, stated against the full-air baseline of
the same computation.  In `calculate_swimming_cost` (`moves/water.rs`) the
claim holds as written: air ratio below 0.3 adds
`AIR_DEPLETION_PENALTY · (1 − ratio)²` and at most 20 ticks of air adds
`DROWNING_AVOIDANCE_COST = 50`.  In `calculate_advanced_water_cost`
(`water.rs`), for a water target with depth at most 15, the additions are
`AIR_DEPLETION_PENALTY · (1 − air)` (not squared) below 0.3 and
`DROWNING_AVOIDANCE_COST` below 0.1 of air (not at 20 ticks). -/
theorem water_cost_air_penalties :
    (∀ (w : World) (cur tgt : Pos3) (st : SwimmingState),
      calculate_swimming_cost w cur tgt st =
        calculate_swimming_cost w cur tgt { st with estimated_air := 300 } +
          (if (st.estimated_air : ℚ) / 300 < 3 / 10
           then AIR_DEPLETION_PENALTY * (1 - (st.estimated_air : ℚ) / 300) ^ 2
           else 0) +
          (if st.estimated_air ≤ 20 then DROWNING_AVOIDANCE_COST else 0)) ∧
    (∀ (w : World) (fp tp : Pos3) (ctx : WaterTraversalContext),
      is_traversable_water (w tp) = true → ctx.water_depth ≤ 15 →
      calculate_advanced_water_cost w fp tp ctx =
        calculate_advanced_water_cost w fp tp
            { ctx with air_remaining := 1 } +
          (if ctx.air_remaining < 3 / 10
           then AIR_DEPLETION_PENALTY * (1 - ctx.air_remaining) else 0) +
          (if ctx.air_remaining < 1 / 10
           then DROWNING_AVOIDANCE_COST else 0)) := by
  constructor
  · intro w cur tgt st
    unfold calculate_swimming_cost
    simp only
    rw [if_neg (show ¬ ((300 : ℤ) : ℚ) / 300 < 3 / 10 by norm_num),
      if_neg (show ¬ (300 : ℤ) ≤ 20 by norm_num)]
    by_cases h1 : (st.estimated_air : ℚ) / 300 < 3 / 10
    · by_cases h2 : st.estimated_air ≤ 20
      · rw [if_pos h2, if_pos h1, if_pos h1, if_pos h2]; try ring
      · rw [if_neg h2, if_pos h1, if_pos h1, if_neg h2]; try ring
    · by_cases h2 : st.estimated_air ≤ 20
      · rw [if_pos h2, if_neg h1, if_neg h1, if_pos h2]; try ring
      · rw [if_neg h2, if_neg h1, if_neg h1, if_neg h2]; try ring
  · intro w fp tp ctx h hd
    have hd15 : ¬ 15 < ctx.water_depth := by omega
    unfold calculate_advanced_water_cost
    simp only [h, not_true_eq_false, if_false, if_neg hd15]
    rw [if_neg (show ¬ ((1 : ℚ) < 3 / 10) by norm_num),
      if_neg (show ¬ ((1 : ℚ) < 1 / 10) by norm_num)]
    by_cases h1 : ctx.air_remaining < 3 / 10
    · by_cases h2 : ctx.air_remaining < 1 / 10
      · rw [if_pos h2, if_pos h1, if_pos h1, if_pos h2]; try ring
      · rw [if_neg h2, if_pos h1, if_pos h1, if_neg h2]; try ring
    · have h2 : ¬ ctx.air_remaining < 1 / 10 := fun hc =>
        h1 (hc.trans (by norm_num))
      rw [if_neg h2, if_neg h1, if_neg h1, if_neg h2]; try ring

/-- Witness for the amended C3 theorem at the concrete context `c3Ctx` over
the all-water world. -/
theorem water_cost_air_penalties_witness :
    calculate_advanced_water_cost allWaterWorld ⟨0, 0, 0⟩ ⟨0, 0, 0⟩ c3Ctx =
      calculate_advanced_water_cost allWaterWorld ⟨0, 0, 0⟩ ⟨0, 0, 0⟩
          { c3Ctx with air_remaining := 1 } +
        (if c3Ctx.air_remaining < 3 / 10
         then AIR_DEPLETION_PENALTY * (1 - c3Ctx.air_remaining) else 0) +
        (if c3Ctx.air_remaining < 1 / 10
         then DROWNING_AVOIDANCE_COST else 0) :=
  water_cost_air_penalties.2 allWaterWorld ⟨0, 0, 0⟩ ⟨0, 0, 0⟩ c3Ctx
    (by rfl) (by norm_num [c3Ctx])

/-! ## Mining goals (`mining_goals.rs`) -/

inductive StripMineDirection where
  | north
  | south
  | east
  | west
deriving DecidableEq, Repr

/-- The `MiningGoal` enum.  `OreVein.blocks` is a `HashSet<BlockPos>`,
modelled as a `Finset`. -/
inductive MGoal where
  | singleBlock (target : Pos3) (prefer_y_level : Option ℤ)
  | multipleBlocks (targets : List Pos3) (allow_internal_mining : Bool)
  | oreVein (blocks : Finset Pos3) (center : Pos3) (max_reach : ℚ)
  | stripMine (start : Pos3) (direction : StripMineDirection)
      (length height width : ℕ)
deriving DecidableEq

/-- Mirrors `MiningGoal::can_mine_from_position`: integer squared distance
at most 20. -/
def can_mine_from_position (pos target : Pos3) : Bool :=
  Pos3.d2 pos target ≤ 20

/-- Exact model of the `f32` membership test of `OreVein::success`,
`((dx²+dy²+dz²) as f32).sqrt() <= max_reach`: equivalent to
`0 ≤ max_reach ∧ d² ≤ max_reach²` by `sqrt_le_test_iff`. -/
def reach_test (pos b : Pos3) (m : ℚ) : Bool :=
  decide (0 ≤ m) && decide ((Pos3.d2 pos b : ℚ) ≤ m ^ 2)

/-- Mirrors `Goal::success` for `MiningGoal`. -/
def MGoal.success (g : MGoal) (pos : Pos3) : Bool :=
  match g with
  | .singleBlock target _ => can_mine_from_position pos target
  | .multipleBlocks targets allow_internal_mining =>
    if allow_internal_mining then
      targets.any fun target => can_mine_from_position pos target
    else
      !(targets.contains pos) &&
        (targets.any fun target => can_mine_from_position pos target)
  | .oreVein blocks _ max_reach =>
    decide (3 ≤ (blocks.filter fun b => reach_test pos b max_reach = true).card)
  | .stripMine start _ _ _ _ => Pos3.d2 pos start ≤ 2

/-- C5: `SingleBlock` success holds exactly when the Euclidean distance
from `pos` to the target is at most 4.5 blocks.  The code tests the integer
squared distance against 20, and for integer positions
`√d² ≤ 4.5 ↔ d² ≤ 20.25 ↔ d² ≤ 20`, so the two reach formulations the
spec mentions coincide on block positions. -/
theorem single_block_success_iff_within_reach
    (target : Pos3) (py : Option ℤ) (pos : Pos3) :
    (MGoal.singleBlock target py).success pos = true ↔
      Real.sqrt ((Pos3.d2 pos target : ℤ) : ℝ) ≤ (9 / 2 : ℝ) := by
  have h92 : ((9 / 2 : ℚ) : ℝ) = (9 / 2 : ℝ) := by norm_num
  rw [← h92, sqrt_le_test_iff]
  simp only [MGoal.success, can_mine_from_position, decide_eq_true_eq]
  constructor
  · intro h
    refine ⟨by norm_num, ?_⟩
    have : ((Pos3.d2 pos target : ℤ) : ℚ) ≤ 20 := by exact_mod_cast h
    nlinarith
  · rintro ⟨-, h2⟩
    have : ((Pos3.d2 pos target : ℤ) : ℚ) ≤ 81 / 4 := by nlinarith
    have h20 : Pos3.d2 pos target ≤ 20 := by
      by_contra hc
      push_neg at hc
      have h21 : (21 : ℤ) ≤ Pos3.d2 pos target := by omega
      have h21q : ((21 : ℤ) : ℚ) ≤ ((Pos3.d2 pos target : ℤ) : ℚ) := by
        exact_mod_cast h21
      push_cast at h21q
      linarith
    exact h20

open Classical in
/-- C6: `OreVein` success holds exactly when at least 3 of the vein's
blocks lie within Euclidean distance `max_reach` of `pos`. -/
theorem ore_vein_success_iff_three_within_reach
    (blocks : Finset Pos3) (center : Pos3) (max_reach : ℚ) (pos : Pos3) :
    (MGoal.oreVein blocks center max_reach).success pos = true ↔
      3 ≤ (blocks.filter fun b =>
        Real.sqrt ((Pos3.d2 pos b : ℤ) : ℝ) ≤ ((max_reach : ℚ) : ℝ)).card := by
  simp only [MGoal.success, decide_eq_true_eq]
  have hf : (blocks.filter fun b => reach_test pos b max_reach = true) =
      (blocks.filter fun b =>
        Real.sqrt ((Pos3.d2 pos b : ℤ) : ℝ) ≤ ((max_reach : ℚ) : ℝ)) := by
    apply Finset.filter_congr
    intro b _
    rw [sqrt_le_test_iff]
    simp only [reach_test, Bool.and_eq_true, decide_eq_true_eq]
  rw [hf]

/-! ## Water move generators (`moves/water.rs`)

Each generator pushes edges onto `ctx.edges`; the embedding returns the
list of pushed edges.  `MoveData` carries two function pointers
(`execute`, `is_reached`); the executor identity is kept as a tag. -/

inductive ExecKind where
  | waterTraverse
  | waterAscend
  | waterDescend
  | waterEntry
deriving DecidableEq, Repr

structure Edge where
  target : Pos3
  cost : ℚ
  exec : ExecKind
deriving DecidableEq, Repr

/-- Loop body of `has_nearby_air_access`: walk upward through the listed
offsets, stopping early at a non-passable non-water block. -/
def hasAirAccessGo (w : World) (pos : Pos3) : List ℤ → Bool
  | [] => false
  | y :: rest =>
    let block_state := w (pos.up y)
    if block_state.is_air then true
    else if !block_state.passable ∧ (classify_water block_state).isNone then
      false
    else hasAirAccessGo w pos rest

/-- Mirrors `has_nearby_air_access`: scans `1..=max_distance` upward. -/
def has_nearby_air_access (w : World) (pos : Pos3) (max_distance : ℤ) :
    Bool :=
  hasAirAccessGo w pos ((List.range max_distance.toNat).map fun i => (i : ℤ) + 1)

/-- Per-direction body of the `water_traverse_move` loop. -/
def traverseEdgeFor (w : World) (pos : Pos3) (st : SwimmingState)
    (dir : CardinalDirection) : Option Edge :=
  let target_pos := pos.add ⟨dir.dx, 0, dir.dz⟩
  let target_block := w target_pos
  let target_water := classify_water target_block
  let ok : Bool :=
    match target_water with
    | some t => is_water_navigable t
    | none => target_block.passable
  if !ok then none
  else if !is_water_safe w target_pos then none
  else if !(w (target_pos.up 1)).passable ∧
      (classify_water (w (target_pos.up 1))).isNone then none
  else
    let cost0 : ℚ :=
      if target_water.isSome then calculate_swimming_cost w pos target_pos st
      else WATER_EXIT_COST
    let cost1 : ℚ :=
      if target_water = some .flowingWater then cost0 + FLOW_RESISTANCE_COST
      else cost0
    let cost2 : ℚ :=
      if has_nearby_air_access w target_pos 3 then cost1 * (9 / 10) else cost1
    some { target := target_pos, cost := cost2, exec := .waterTraverse }

/-- Mirrors `water_traverse_move`. -/
def water_traverse_move (w : World) (pos : Pos3) : List Edge :=
  match classify_water (w pos) with
  | none => []
  | some _ =>
    let st :=
      if (classify_water (w (pos.up 1))).isSome then
        { swimmingDefault with consecutive_swim_moves := 4 }
      else swimmingDefault
    cardinalDirections.filterMap (traverseEdgeFor w pos st)

/-- The traverse body with the (unreachable) flowing-water resistance
branch removed; used to state that `FLOW_RESISTANCE_COST` never enters an
emitted cost. -/
def traverseEdgeForNoFlow (w : World) (pos : Pos3) (st : SwimmingState)
    (dir : CardinalDirection) : Option Edge :=
  let target_pos := pos.add ⟨dir.dx, 0, dir.dz⟩
  let target_block := w target_pos
  let target_water := classify_water target_block
  let ok : Bool :=
    match target_water with
    | some t => is_water_navigable t
    | none => target_block.passable
  if !ok then none
  else if !is_water_safe w target_pos then none
  else if !(w (target_pos.up 1)).passable ∧
      (classify_water (w (target_pos.up 1))).isNone then none
  else
    let cost0 : ℚ :=
      if target_water.isSome then calculate_swimming_cost w pos target_pos st
      else WATER_EXIT_COST
    let cost2 : ℚ :=
      if has_nearby_air_access w target_pos 3 then cost0 * (9 / 10) else cost0
    some { target := target_pos, cost := cost2, exec := .waterTraverse }

/-- `water_traverse_move` with the flow-resistance branch removed. -/
def water_traverse_move_no_flow (w : World) (pos : Pos3) : List Edge :=
  match classify_water (w pos) with
  | none => []
  | some _ =>
    let st :=
      if (classify_water (w (pos.up 1))).isSome then
        { swimmingDefault with consecutive_swim_moves := 4 }
      else swimmingDefault
    cardinalDirections.filterMap (traverseEdgeForNoFlow w pos st)

/-- Per-direction body of the `water_ascend_move` loop. -/
def ascendEdgeFor (w : World) (pos : Pos3) (st : SwimmingState)
    (dir : CardinalDirection) : Option Edge :=
  let target_pos := pos.add ⟨dir.dx, 1, dir.dz⟩
  let target_block := w target_pos
  let target_water := classify_water target_block
  let ok : Bool :=
    match target_water with
    | some t => is_water_navigable t
    | none => target_block.passable
  if !ok then none
  else if !is_water_safe w target_pos then none
  else
    let cost0 : ℚ :=
      if target_water.isSome then
        calculate_swimming_cost w pos target_pos st * (13 / 10)
      else SWIMMING_COST * (8 / 10)
    let cost1 : ℚ :=
      if target_block.is_air ∨ has_nearby_air_access w target_pos 2 then
        cost0 * (7 / 10)
      else cost0
    some { target := target_pos, cost := cost1, exec := .waterAscend }

/-- Mirrors `water_ascend_move`. -/
def water_ascend_move (w : World) (pos : Pos3) : List Edge :=
  match classify_water (w pos) with
  | none => []
  | some _ =>
    let st :=
      if (classify_water (w (pos.up 1))).isSome then
        { swimmingDefault with consecutive_swim_moves := 2 }
      else swimmingDefault
    cardinalDirections.filterMap (ascendEdgeFor w pos st)

/-- Per-direction body of the `water_descend_move` loop. -/
def descendEdgeFor (w : World) (pos : Pos3) (st : SwimmingState)
    (dir : CardinalDirection) : Option Edge :=
  let target_pos := pos.add ⟨dir.dx, -1, dir.dz⟩
  let target_water := classify_water (w target_pos)
  match target_water with
  | none => none
  | some t =>
    if !is_water_navigable t then none
    else if !is_water_safe w target_pos then none
    else
      let base_cost := calculate_swimming_cost w pos target_pos st
      let cost0 : ℚ := base_cost * (9 / 10)
      let cost1 : ℚ := if st.estimated_air < 100 then cost0 * (15 / 10) else cost0
      let cost2 : ℚ :=
        if !has_nearby_air_access w target_pos 4 then cost1 * (12 / 10)
        else cost1
      some { target := target_pos, cost := cost2, exec := .waterDescend }

/-- Mirrors `water_descend_move`. -/
def water_descend_move (w : World) (pos : Pos3) : List Edge :=
  match classify_water (w pos) with
  | none => []
  | some _ =>
    let st :=
      if (classify_water (w (pos.up 1))).isSome then
        { swimmingDefault with consecutive_swim_moves := 3 }
      else swimmingDefault
    cardinalDirections.filterMap (descendEdgeFor w pos st)

/-- Per-direction body of the `water_entry_moves` loop. -/
def entryEdgeFor (w : World) (pos : Pos3) (dir : CardinalDirection) :
    Option Edge :=
  let target_pos := pos.add ⟨dir.dx, 0, dir.dz⟩
  let target_water := classify_water (w target_pos)
  match target_water with
  | none => none
  | some t =>
    if !is_water_navigable t then none
    else if !is_water_safe w target_pos then none
    else some { target := target_pos, cost := WATER_ENTRY_COST,
                exec := .waterEntry }

/-- Mirrors `water_entry_moves`. -/
def water_entry_moves (w : World) (pos : Pos3) : List Edge :=
  match classify_water (w pos) with
  | none => cardinalDirections.filterMap (entryEdgeFor w pos)
  | some _ => []

lemma navigable_ne_flowing_dangerous (t : WaterType)
    (h : is_water_navigable t = true) :
    t ≠ .flowingWater ∧ t ≠ .dangerous := by
  cases t <;> simp_all [is_water_navigable]

lemma entryEdgeFor_spec (w : World) (pos : Pos3) (dir : CardinalDirection)
    (e : Edge) (hf : entryEdgeFor w pos dir = some e) :
    ∃ t, classify_water (w e.target) = some t ∧
      is_water_navigable t = true ∧ is_water_safe w e.target = true := by
  unfold entryEdgeFor at hf
  simp only [] at hf
  cases hcw : classify_water (w (pos.add ⟨dir.dx, 0, dir.dz⟩)) with
  | none => rw [hcw] at hf; exact absurd hf (by simp)
  | some t =>
    rw [hcw] at hf
    simp only [] at hf
    split_ifs at hf with h1 h2 <;>
      first
      | exact Option.noConfusion hf
      | (exfalso; assumption)
      | (have he := Option.some.inj hf
         exact ⟨t, by rw [← he]; exact hcw, by simpa using h1,
           by rw [← he]; simpa using h2⟩)

lemma traverseEdgeFor_navigable (w : World) (pos : Pos3)
    (st : SwimmingState) (dir : CardinalDirection) (e : Edge)
    (hf : traverseEdgeFor w pos st dir = some e) :
    ∀ t, classify_water (w e.target) = some t →
      is_water_navigable t = true := by
  intro t ht
  unfold traverseEdgeFor at hf
  simp only [] at hf
  cases hcw : classify_water (w (pos.add ⟨dir.dx, 0, dir.dz⟩)) with
  | none =>
    rw [hcw] at hf
    simp only [] at hf
    split_ifs at hf with h1 h2 h3 <;>
      first
      | exact Option.noConfusion hf
      | (exfalso; assumption)
      | (have he := Option.some.inj hf
         rw [← he] at ht
         simp only at ht
         rw [hcw] at ht
         exact absurd ht (by simp))
  | some t0 =>
    rw [hcw] at hf
    simp only [] at hf
    split_ifs at hf with h1 h2 h3 <;>
      first
      | exact Option.noConfusion hf
      | (exfalso; assumption)
      | (have he := Option.some.inj hf
         rw [← he] at ht
         simp only at ht
         rw [hcw] at ht
         have hte : t0 = t := Option.some.inj ht
         subst hte
         simpa using h1)

lemma ascendEdgeFor_navigable (w : World) (pos : Pos3)
    (st : SwimmingState) (dir : CardinalDirection) (e : Edge)
    (hf : ascendEdgeFor w pos st dir = some e) :
    ∀ t, classify_water (w e.target) = some t →
      is_water_navigable t = true := by
  intro t ht
  unfold ascendEdgeFor at hf
  simp only [] at hf
  cases hcw : classify_water (w (pos.add ⟨dir.dx, 1, dir.dz⟩)) with
  | none =>
    rw [hcw] at hf
    simp only [] at hf
    split_ifs at hf with h1 h2 <;>
      first
      | exact Option.noConfusion hf
      | (exfalso; assumption)
      | (have he := Option.some.inj hf
         rw [← he] at ht
         simp only at ht
         rw [hcw] at ht
         exact absurd ht (by simp))
  | some t0 =>
    rw [hcw] at hf
    simp only [] at hf
    split_ifs at hf with h1 h2 <;>
      first
      | exact Option.noConfusion hf
      | (exfalso; assumption)
      | (have he := Option.some.inj hf
         rw [← he] at ht
         simp only at ht
         rw [hcw] at ht
         have hte : t0 = t := Option.some.inj ht
         subst hte
         simpa using h1)

lemma descendEdgeFor_navigable (w : World) (pos : Pos3)
    (st : SwimmingState) (dir : CardinalDirection) (e : Edge)
    (hf : descendEdgeFor w pos st dir = some e) :
    ∀ t, classify_water (w e.target) = some t →
      is_water_navigable t = true := by
  intro t ht
  unfold descendEdgeFor at hf
  simp only [] at hf
  cases hcw : classify_water (w (pos.add ⟨dir.dx, -1, dir.dz⟩)) with
  | none => rw [hcw] at hf; exact absurd hf (by simp)
  | some t0 =>
    rw [hcw] at hf
    simp only [] at hf
    split_ifs at hf with h1 h2 <;>
      first
      | exact Option.noConfusion hf
      | (exfalso; assumption)
      | (have he := Option.some.inj hf
         rw [← he] at ht
         simp only at ht
         rw [hcw] at ht
         have hte : t0 = t := Option.some.inj ht
         subst hte
         simpa using h1)

lemma traverseEdgeFor_eq_no_flow (w : World) (pos : Pos3)
    (st : SwimmingState) (dir : CardinalDirection) :
    traverseEdgeFor w pos st dir = traverseEdgeForNoFlow w pos st dir := by
  unfold traverseEdgeFor traverseEdgeForNoFlow
  simp only []
  cases hcw : classify_water (w (pos.add ⟨dir.dx, 0, dir.dz⟩)) with
  | none => simp
  | some t0 =>
    by_cases hn : is_water_navigable t0
    · have hne : t0 ≠ WaterType.flowingWater := by
        intro hc
        subst hc
        simp [is_water_navigable] at hn
      simp [hn, hne]
    · simp [hn]

/-- C8: every edge emitted by the water-entry generator targets a block
classified as navigable water (still or waterlogged) which passes the
lava-adjacency safety check. -/
theorem water_entry_edges_navigable_and_safe (w : World) (pos : Pos3)
    (e : Edge) (he : e ∈ water_entry_moves w pos) :
    ∃ t, classify_water (w e.target) = some t ∧
      is_water_navigable t = true ∧ is_water_safe w e.target = true := by
  unfold water_entry_moves at he
  cases hcw : classify_water (w pos) with
  | some t => rw [hcw] at he; exact absurd he (by simp)
  | none =>
    rw [hcw] at he
    rcases List.mem_filterMap.mp he with ⟨dir, -, hf⟩
    exact entryEdgeFor_spec w pos dir e hf

/-- A world with a single still-water source at `(1, 0, 0)` and air
everywhere else. -/
def entryWorld : World := fun p => if p = ⟨1, 0, 0⟩ then waterSource else airBlock

/-- Witness for C8: from land at the origin of `entryWorld`, the entry
generator emits the edge into the water source at `(1, 0, 0)`. -/
theorem water_entry_edges_navigable_and_safe_witness :
    ∃ t, classify_water (entryWorld (Edge.target
        ⟨⟨1, 0, 0⟩, WATER_ENTRY_COST, .waterEntry⟩)) = some t ∧
      is_water_navigable t = true ∧
      is_water_safe entryWorld (Edge.target
        ⟨⟨1, 0, 0⟩, WATER_ENTRY_COST, .waterEntry⟩) = true :=
  water_entry_edges_navigable_and_safe entryWorld ⟨0, 0, 0⟩
    ⟨⟨1, 0, 0⟩, WATER_ENTRY_COST, .waterEntry⟩ (by decide)

/-- C10: no water move generator ever emits an edge whose target block
classifies as `FlowingWater` or `Dangerous`, and the flow-resistance branch
of the traverse generator is unreachable: the generator is extensionally
equal to the variant with that branch removed, so no emitted cost includes
`FLOW_RESISTANCE_COST`. -/
theorem water_move_targets_never_flowing_or_dangerous :
    (∀ (w : World) (pos : Pos3) (e : Edge),
      e ∈ water_traverse_move w pos ++ water_ascend_move w pos ++
          water_descend_move w pos ++ water_entry_moves w pos →
      ∀ t, classify_water (w e.target) = some t →
        t ≠ .flowingWater ∧ t ≠ .dangerous) ∧
    (∀ (w : World) (pos : Pos3),
      water_traverse_move w pos = water_traverse_move_no_flow w pos) := by
  constructor
  · intro w pos e he t ht
    apply navigable_ne_flowing_dangerous
    rcases List.mem_append.mp he with he1 | he4
    rcases List.mem_append.mp he1 with he2 | he3
    rcases List.mem_append.mp he2 with htr | has
    · unfold water_traverse_move at htr
      cases hcw : classify_water (w pos) with
      | none => rw [hcw] at htr; exact absurd htr (by simp)
      | some t0 =>
        rw [hcw] at htr
        rcases List.mem_filterMap.mp htr with ⟨dir, -, hf⟩
        exact traverseEdgeFor_navigable w pos _ dir e hf t ht
    · unfold water_ascend_move at has
      cases hcw : classify_water (w pos) with
      | none => rw [hcw] at has; exact absurd has (by simp)
      | some t0 =>
        rw [hcw] at has
        rcases List.mem_filterMap.mp has with ⟨dir, -, hf⟩
        exact ascendEdgeFor_navigable w pos _ dir e hf t ht
    · unfold water_descend_move at he3
      cases hcw : classify_water (w pos) with
      | none => rw [hcw] at he3; exact absurd he3 (by simp)
      | some t0 =>
        rw [hcw] at he3
        rcases List.mem_filterMap.mp he3 with ⟨dir, -, hf⟩
        exact descendEdgeFor_navigable w pos _ dir e hf t ht
    · unfold water_entry_moves at he4
      cases hcw : classify_water (w pos) with
      | some t0 => rw [hcw] at he4; exact absurd he4 (by simp)
      | none =>
        rw [hcw] at he4
        rcases List.mem_filterMap.mp he4 with ⟨dir, -, hf⟩
        rcases entryEdgeFor_spec w pos dir e hf with ⟨t0, ht0, hn, -⟩
        rw [ht0] at ht
        have : t0 = t := Option.some.inj ht
        subst this
        exact hn
  · intro w pos
    unfold water_traverse_move water_traverse_move_no_flow
    cases classify_water (w pos) with
    | none => rfl
    | some t0 =>
      simp only
      exact List.filterMap_congr fun dir _ => traverseEdgeFor_eq_no_flow w pos _ dir

/-- Witness for C10 at the concrete `entryWorld`: the entry edge into the
still-water source instantiates the membership and classification
hypotheses. -/
theorem water_move_targets_never_flowing_or_dangerous_witness :
    WaterType.stillWater ≠ WaterType.flowingWater ∧
      WaterType.stillWater ≠ WaterType.dangerous :=
  water_move_targets_never_flowing_or_dangerous.1 entryWorld ⟨0, 0, 0⟩
    ⟨⟨1, 0, 0⟩, WATER_ENTRY_COST, .waterEntry⟩ (by decide) .stillWater
    (by decide)

/-! ## Mining process (`mining_process.rs`)

Rust `i32` division truncates toward zero, which is `Int.tdiv`.
`HashSet` iteration order is unspecified in Rust; `detect_ore_veins`
draws its flood-fill seeds with `unprocessed.iter().next()`, which is
modelled deterministically as the first input-order element still
unprocessed.  The properties proved below do not depend on that order.
Loops carry explicit fuel, generous enough for the loops to run to
completion on the inputs examined. -/

/-- Mirrors `MiningProcess::calculate_vein_center`: componentwise sum with
truncating `i32` division by the length, and `(0,0,0)` for the empty
vein. -/
def calculate_vein_center (vein : List Pos3) : Pos3 :=
  if vein = [] then ⟨0, 0, 0⟩
  else
    let count : ℤ := vein.length
    ⟨Int.tdiv (vein.map Pos3.x).sum count,
     Int.tdiv (vein.map Pos3.y).sum count,
     Int.tdiv (vein.map Pos3.z).sum count⟩

/-- Flood-fill loop of `MiningGoal::for_ore_vein` (`mining_goals.rs`):
a LIFO stack (`Vec::push`/`pop`), a `checked` set and the accumulated
`vein_blocks`.  The neighbour scan replays the source exactly: positions
still unchecked after `current` was checked, within `max_vein_distance`. -/
def forOreVeinGo (all_ores : List Pos3) (m : ℚ) :
    ℕ → List Pos3 → Finset Pos3 → Finset Pos3 → Finset Pos3
  | 0, _, _, vein => vein
  | _ + 1, [], _, vein => vein
  | fuel + 1, current :: rest, checked, vein =>
    if current ∈ checked then forOreVeinGo all_ores m fuel rest checked vein
    else
      let checked2 := insert current checked
      let vein2 := insert current vein
      let to_push := all_ores.filter fun ore =>
        ore ∉ checked2 ∧ reach_test current ore m
      forOreVeinGo all_ores m fuel
        (to_push.foldl (fun acc ore => ore :: acc) rest) checked2 vein2

/-- Mirrors `MiningGoal::for_ore_vein`: flood-fill the vein, take the
componentwise integer average as centre (`initial_ore` if the vein is
empty), and fix `max_reach = 4.5`. -/
def for_ore_vein (initial_ore : Pos3) (all_ores : List Pos3)
    (max_vein_distance : ℚ) : MGoal :=
  let vein_blocks := forOreVeinGo all_ores max_vein_distance
    ((all_ores.length + 2) * (all_ores.length + 2)) [initial_ore] ∅ ∅
  let center :=
    if vein_blocks = ∅ then initial_ore
    else
      let count : ℤ := vein_blocks.card
      ⟨Int.tdiv (vein_blocks.sum Pos3.x) count,
       Int.tdiv (vein_blocks.sum Pos3.y) count,
       Int.tdiv (vein_blocks.sum Pos3.z) count⟩
  MGoal.oreVein vein_blocks center (9 / 2)

/-- Inner BFS of `MiningProcess::detect_ore_veins`: pop from the front of
a `VecDeque`, append the popped position to the vein, and push every still
unprocessed position within distance 3, removing it from `unprocessed` as
it is pushed. -/
def bfsVein (positions : List Pos3) :
    ℕ → List Pos3 → Finset Pos3 → List Pos3 → (List Pos3 × Finset Pos3)
  | 0, _, unp, vein => (vein, unp)
  | _ + 1, [], unp, vein => (vein, unp)
  | fuel + 1, current :: rest, unp, vein =>
    let st := positions.foldl
      (fun (st : List Pos3 × Finset Pos3) q =>
        if q ∈ st.2 ∧ reach_test current q 3 then
          (st.1 ++ [q], st.2.erase q)
        else st)
      (rest, unp)
    bfsVein positions fuel st.1 st.2 (vein ++ [current])

/-- Outer loop of `detect_ore_veins`: seed a flood fill at the first
unprocessed position, keep the resulting cluster when it has at least two
blocks. -/
def detectGo (positions : List Pos3) :
    ℕ → Finset Pos3 → List (List Pos3)
  | 0, _ => []
  | fuel + 1, unp =>
    match positions.find? (fun q => q ∈ unp) with
    | none => []
    | some start =>
      let r := bfsVein positions
        ((positions.length + 2) * (positions.length + 2))
        [start] (unp.erase start) []
      let rest := detectGo positions fuel r.2
      if 2 ≤ r.1.length then r.1 :: rest else rest

/-- Mirrors `MiningProcess::detect_ore_veins`. -/
def detect_ore_veins (positions : List Pos3) : List (List Pos3) :=
  detectGo positions (positions.length + 1) positions.toFinset

/-- The loop body of `update_mining_goal` that builds one `(goal, weight)`
pair per vein: the weight is `vein_size / (distance_to_player + 1)` where
`distance_to_player = vein_center.distance_squared_to(player_pos) as f32`
— the squared distance, not the Euclidean one.  `vein[0]` is total here
(`headD` with a junk default); the veins produced by `detect_ore_veins`
are nonempty. -/
def vein_goal_entry (player : Pos3) (vein : List Pos3) : MGoal × ℚ :=
  let vein_center := calculate_vein_center vein
  let distance_to_player : ℚ := (Pos3.d2 vein_center player : ℚ)
  let vein_size : ℚ := vein.length
  let priority := vein_size / (distance_to_player + 1)
  (for_ore_vein (vein.headD ⟨0, 0, 0⟩) vein 3, priority)

/-- A goal returned by the mining process: either a plain `MiningGoal` or
the weighted `PriorizedMiningGoal`. -/
inductive ProcessGoal where
  | mining (g : MGoal)
  | priorized (goals : List (MGoal × ℚ))
deriving DecidableEq

/-- The weights of a prioritised goal, in order. -/
def ProcessGoal.weights : ProcessGoal → List ℚ
  | .priorized goals => goals.map Prod.snd
  | .mining _ => []

/-- Mirrors `MiningProcess::update_mining_goal`.  The Rust stable
`sort_by_key` is modelled with `List.insertionSort` on the squared
distance to the player (the claims below do not depend on the order of
equal keys).  `prefer_y` is the `prefer_y_levels` pair, of which the
branch uses the maximum. -/
def update_mining_goal (player : Pos3) (known : List Pos3)
    (prefer_y : Option (ℤ × ℤ)) : Option ProcessGoal :=
  if known = [] then none
  else
    let sorted := List.insertionSort
      (fun a b => Pos3.d2 a player ≤ Pos3.d2 b player) known
    let target_locations := sorted.take 20
    let veinBranch : Option ProcessGoal :=
      if 1 < target_locations.length then
        let veins := detect_ore_veins target_locations
        if veins ≠ [] then
          some (.priorized (veins.map (vein_goal_entry player)))
        else none
      else none
    match veinBranch with
    | some goal => some goal
    | none =>
      if target_locations.length = 1 then
        some (.mining (.singleBlock (target_locations.headD ⟨0, 0, 0⟩)
          (prefer_y.map Prod.snd)))
      else
        some (.mining (.multipleBlocks target_locations false))

/-- Concrete known locations: two two-block veins, one centred 5 blocks
from the origin (squared distance 25), one 10 blocks away (squared
distance 100). -/
def c4Known : List Pos3 :=
  [⟨3, 4, 0⟩, ⟨3, 4, 1⟩, ⟨10, 0, 0⟩, ⟨10, 0, 1⟩]

lemma c4_sorted_eval :
    (List.insertionSort
      (fun a b => Pos3.d2 a ⟨0, 0, 0⟩ ≤ Pos3.d2 b ⟨0, 0, 0⟩) c4Known).take 20 =
      c4Known := by
  norm_num [c4Known, List.insertionSort, List.orderedInsert, Pos3.d2]

lemma c4_veins_eval :
    detect_ore_veins c4Known =
      [[⟨3, 4, 0⟩, ⟨3, 4, 1⟩], [⟨10, 0, 0⟩, ⟨10, 0, 1⟩]] := by
  norm_num [detect_ore_veins, detectGo, bfsVein, c4Known, reach_test,
    Pos3.d2]

lemma c4_upd_eval :
    update_mining_goal ⟨0, 0, 0⟩ c4Known none =
      some (.priorized ((detect_ore_veins c4Known).map
        (vein_goal_entry ⟨0, 0, 0⟩))) := by
  unfold update_mining_goal
  rw [if_neg (by simp [c4Known])]
  simp only [c4_sorted_eval]
  rw [if_pos (by norm_num [c4Known])]
  rw [if_pos (by rw [c4_veins_eval]; simp)]

lemma c4_weights_eval :
    (update_mining_goal ⟨0, 0, 0⟩ c4Known none).map ProcessGoal.weights =
      some [1 / 13, 2 / 101] := by
  rw [c4_upd_eval, c4_veins_eval]
  have hcA : calculate_vein_center [⟨3, 4, 0⟩, ⟨3, 4, 1⟩] = ⟨3, 4, 0⟩ := by
    decide
  have hcB : calculate_vein_center [⟨10, 0, 0⟩, ⟨10, 0, 1⟩] = ⟨10, 0, 0⟩ := by
    decide
  norm_num [ProcessGoal.weights, vein_goal_entry, hcA, hcB, Pos3.d2]

/-- C4 counterexample: with two veins of two blocks each at squared
distances 25 and 100 from the player at the origin, the prioritised goal
weights are `2/26 = 1/13` and `2/101`, not the Euclidean
`2/(√25+1) = 1/3` and `2/(√100+1) = 2/11` the claim predicts. -/
theorem priorized_weights_not_euclidean :
    ¬ ((update_mining_goal ⟨0, 0, 0⟩ c4Known none).map
        (fun g => g.weights.map (fun q => (q : ℝ)))) =
      some [2 / (Real.sqrt 25 + 1), 2 / (Real.sqrt 100 + 1)] := by
  intro hc
  have h25 : Real.sqrt 25 = 5 := by
    rw [show (25 : ℝ) = 5 ^ 2 by norm_num, Real.sqrt_sq (by norm_num)]
  have hw := c4_weights_eval
  rcases hu : update_mining_goal ⟨0, 0, 0⟩ c4Known none with - | g
  · rw [hu] at hw; exact Option.noConfusion hw
  · rw [hu] at hw hc
    simp only [Option.map_some'] at hw hc
    have hwg : g.weights = [1 / 13, 2 / 101] := Option.some.inj hw
    rw [hwg] at hc
    have hlist := Option.some.inj hc
    have hhead : ((1 / 13 : ℚ) : ℝ) = 2 / (Real.sqrt 25 + 1) := by
      have := congrArg (fun l => l.headD 0) hlist
      simpa using this
    rw [h25] at hhead
    norm_num at hhead

/-- C4 amended: whenever the goal update detects more than one vein (and
hence ran vein detection at all, i.e. more than one candidate location
survived the top-20 cut), the returned goal is the prioritised mining goal
over exactly those veins, and each vein's weight is
`vein_size / (squared_distance_to_player + 1)` — the *squared* Euclidean
distance from the vein centre to the player, not the Euclidean distance
the claim states. -/
theorem priorized_mining_weights (player : Pos3) (known : List Pos3)
    (py : Option (ℤ × ℤ))
    (h1 : 1 < ((List.insertionSort
      (fun a b => Pos3.d2 a player ≤ Pos3.d2 b player) known).take 20).length)
    (h2 : 1 < (detect_ore_veins ((List.insertionSort
      (fun a b => Pos3.d2 a player ≤ Pos3.d2 b player) known).take 20)).length) :
    update_mining_goal player known py =
      some (.priorized ((detect_ore_veins ((List.insertionSort
        (fun a b => Pos3.d2 a player ≤ Pos3.d2 b player) known).take 20)).map
          (vein_goal_entry player))) ∧
    ∀ vein : List Pos3,
      (vein_goal_entry player vein).2 =
        (vein.length : ℚ) /
          ((Pos3.d2 (calculate_vein_center vein) player : ℚ) + 1) := by
  constructor
  · have hp := (List.perm_insertionSort
      (fun a b => Pos3.d2 a player ≤ Pos3.d2 b player) known).length_eq
    have hkn : ¬ known = [] := by
      intro h
      have hlt := List.length_take 20 (List.insertionSort
        (fun a b => Pos3.d2 a player ≤ Pos3.d2 b player) known)
      rw [hp] at hlt
      have h0 : known.length = 0 := by rw [h]; rfl
      omega
    have hne : detect_ore_veins ((List.insertionSort
        (fun a b => Pos3.d2 a player ≤ Pos3.d2 b player) known).take 20) ≠
        [] := by
      intro h
      rw [h] at h2
      simp at h2
    unfold update_mining_goal
    rw [if_neg hkn]
    simp only []
    rw [if_pos h1, if_pos hne]
  · intro vein
    rfl

/-- Witness for the amended C4 theorem at the concrete two-vein input. -/
theorem priorized_mining_weights_witness :
    (update_mining_goal ⟨0, 0, 0⟩ c4Known none =
      some (.priorized ((detect_ore_veins ((List.insertionSort
        (fun a b => Pos3.d2 a ⟨0, 0, 0⟩ ≤ Pos3.d2 b ⟨0, 0, 0⟩)
          c4Known).take 20)).map (vein_goal_entry ⟨0, 0, 0⟩))) ∧
    ∀ vein : List Pos3,
      (vein_goal_entry ⟨0, 0, 0⟩ vein).2 =
        (vein.length : ℚ) /
          ((Pos3.d2 (calculate_vein_center vein) ⟨0, 0, 0⟩ : ℚ) + 1)) :=
  priorized_mining_weights ⟨0, 0, 0⟩ c4Known none
    (by rw [c4_sorted_eval]; norm_num [c4Known])
    (by rw [c4_sorted_eval, c4_veins_eval]; norm_num)

/-! ## C7: the blacklist of `mining_process.rs`

`Instant`/`Duration` are rational time stamps; the
`HashMap<BlockPos, Instant>` is a partial map from positions to expiry
instants. -/

/-- Mirrors `MiningProcess::blacklist_position`: store
`blacklist_until = now + duration` for `pos`. -/
def blacklist_position (bl : Pos3 → Option ℚ) (pos : Pos3)
    (now duration : ℚ) : Pos3 → Option ℚ :=
  Function.update bl pos (some (now + duration))

/-- Mirrors `MiningProcess::is_blacklisted`: an entry blocks exactly while
`now < blacklist_until`. -/
def is_blacklisted (bl : Pos3 → Option ℚ) (pos : Pos3) (now : ℚ) : Bool :=
  match bl pos with
  | some blacklist_until => decide (now < blacklist_until)
  | none => false

/-- Mirrors `MiningProcess::cleanup_blacklist`: retain entries with
`now < blacklist_until`. -/
def cleanup_blacklist (bl : Pos3 → Option ℚ) (now : ℚ) :
    Pos3 → Option ℚ := fun p =>
  match bl p with
  | some blacklist_until =>
    if now < blacklist_until then some blacklist_until else none
  | none => none

/-- The blacklist filter applied to freshly scanned locations in
`MiningProcess::scan_for_targets`. -/
def scan_filter (bl : Pos3 → Option ℚ) (now : ℚ) (locs : List Pos3) :
    List Pos3 :=
  locs.filter fun p => !is_blacklisted bl p now

/-- C7: after `blacklist_position p d` at time `t0` (followed, as in
`update`, by the `cleanup_blacklist` of the scanning tick), `p` is removed
from scan results at every `t ∈ [t0, t0 + d)`, and from `t0 + d` on it
passes the filter exactly as an ordinary location would. -/
theorem blacklist_until_expiry (bl : Pos3 → Option ℚ) (p : Pos3)
    (t0 d t : ℚ) (locs : List Pos3) :
    (t0 ≤ t → t < t0 + d →
      p ∉ scan_filter (cleanup_blacklist (blacklist_position bl p t0 d) t) t
        locs) ∧
    (t0 + d ≤ t →
      (p ∈ scan_filter (cleanup_blacklist (blacklist_position bl p t0 d) t) t
        locs ↔ p ∈ locs)) := by
  have hlook : cleanup_blacklist (blacklist_position bl p t0 d) t p =
      if t < t0 + d then some (t0 + d) else none := by
    unfold cleanup_blacklist blacklist_position
    rw [Function.update_same]
  constructor
  · intro ht1 ht2 hmem
    have := List.of_mem_filter hmem
    rw [is_blacklisted, hlook, if_pos ht2] at this
    simp [ht2] at this
  · intro ht
    have hb : is_blacklisted
        (cleanup_blacklist (blacklist_position bl p t0 d) t) p t = false := by
      rw [is_blacklisted, hlook, if_neg (by linarith)]
    constructor
    · intro hmem
      exact List.mem_of_mem_filter hmem
    · intro hmem
      exact List.mem_filter.mpr ⟨hmem, by rw [hb]; rfl⟩

/-- Witness for C7: blacklist the origin at `t0 = 0` for 10 time units;
at `t = 5` it is filtered from `[origin]`, at `t = 10` it passes again. -/
theorem blacklist_until_expiry_witness :
    (⟨0, 0, 0⟩ : Pos3) ∉ scan_filter
        (cleanup_blacklist (blacklist_position (fun _ => none) ⟨0, 0, 0⟩ 0 10)
          5) 5 [⟨0, 0, 0⟩] ∧
    ((⟨0, 0, 0⟩ : Pos3) ∈ scan_filter
        (cleanup_blacklist (blacklist_position (fun _ => none) ⟨0, 0, 0⟩ 0 10)
          10) 10 [⟨0, 0, 0⟩] ↔ (⟨0, 0, 0⟩ : Pos3) ∈ [(⟨0, 0, 0⟩ : Pos3)]) :=
  ⟨(blacklist_until_expiry (fun _ => none) ⟨0, 0, 0⟩ 0 10 5 [⟨0, 0, 0⟩]).1
      (by norm_num) (by norm_num),
    (blacklist_until_expiry (fun _ => none) ⟨0, 0, 0⟩ 0 10 10 [⟨0, 0, 0⟩]).2
      (by norm_num)⟩

/-! ## World scanner (`world_scanner.rs`)

`azalea_world` types are external: a chunk-section is modelled by its
palette and an opaque block-state accessor, a chunk by its section list,
and the instance by a partial map from chunk positions to chunks.
`ChunkPos::from(&BlockPos)` is the arithmetic shift `x >> 4`, i.e. floor
division by 16; in-chunk `i32` divisions (`player_y / 16`) truncate and
are `Int.tdiv`.  `section_y as usize` maps negative values to huge
indices, so negative `section_y` never finds a section.  The accumulating
loops with `break`/early `return` are structural recursions over the
iteration sequences. -/

structure ChunkPosM where
  x : ℤ
  z : ℤ
deriving DecidableEq, Repr

inductive PaletteM where
  | singleValue (state : ℕ)
  | linear (states : List ℕ)
  | hashmap (states : List ℕ)
  | global
deriving DecidableEq

/-- A chunk section: its palette and the block state at each in-section
coordinate (`section.states.get`). -/
structure SectionM where
  palette : PaletteM
  states : ℕ → ℕ → ℕ → ℕ

structure ChunkM where
  sections : List SectionM

structure InstanceM where
  chunks : ChunkPosM → Option ChunkM
  min_y : ℤ
  height : ℕ

structure ScanRequest where
  block_states : List ℕ
  center_pos : Pos3
  max_radius : ℕ
  max_results : ℕ
  y_level_threshold : Option ℤ

structure ScanResult where
  positions : List Pos3
  is_complete : Bool

/-- Mirrors `WorldScanner::palette_contains_target`. -/
def palette_contains_target (palette : PaletteM) (targets : List ℕ) :
    Bool :=
  match palette with
  | .singleValue state => targets.contains state
  | .linear states => states.any fun state => targets.contains state
  | .hashmap states => states.any fun state => targets.contains state
  | .global => true

/-- Mirrors `WorldScanner::spiral_chunk_positions`: the ring of chunk
offsets at the given radius, in the source's `x`-major scan order. -/
def spiral_chunk_positions (center : ChunkPosM) (radius : ℕ) :
    List ChunkPosM :=
  if radius = 0 then [center]
  else
    let r : ℤ := radius
    (List.range (2 * radius + 1)).flatMap fun i =>
      (List.range (2 * radius + 1)).filterMap fun j =>
        let x : ℤ := -r + i
        let z : ℤ := -r + j
        if (|x| = r ∨ |z| = r) ∧ |x| ≤ r ∧ |z| ≤ r then
          some ⟨center.x + x, center.z + z⟩
        else none

/-- Mirrors `WorldScanner::get_prioritized_y_sections`. -/
def get_prioritized_y_sections (player_y threshold : ℤ) : List ℤ :=
  let player_section := Int.tdiv player_y 16
  let top := Int.tdiv threshold 16
  let sections :=
    if top < 0 then []
    else (List.range (top.toNat + 1)).flatMap fun off =>
      if off = 0 then [player_section]
      else [player_section + off, player_section - off]
  sections.filter fun y => -4 ≤ y ∧ y ≤ 19

/-- The default section range `min_y/16 ..= (min_y + height)/16`. -/
def defaultYSections (inst : InstanceM) : List ℤ :=
  let lo := Int.tdiv inst.min_y 16
  let hi := Int.tdiv (inst.min_y + inst.height) 16
  if hi < lo then []
  else (List.range ((hi - lo).toNat + 1)).map fun i => lo + i

/-- The in-section iteration order of `scan_chunk_section`:
`for y in 0..16 { for z in 0..16 { for x in 0..16 } }`. -/
def sectionCoords : List (ℕ × ℕ × ℕ) :=
  (List.range 16).flatMap fun y =>
    (List.range 16).flatMap fun z =>
      (List.range 16).map fun x => (x, y, z)

/-- Block-walk of `scan_chunk_section`: push each matching position and
return as soon as `max_results` is reached. -/
def scanSectionGo (targets : List ℕ) (max_results : ℕ)
    (base_x base_y base_z : ℤ) (sec : SectionM) :
    List (ℕ × ℕ × ℕ) → List Pos3 → List Pos3
  | [], results => results
  | (x, y, z) :: rest, results =>
    let block_state := sec.states x y z
    if targets.contains block_state then
      let results2 := results ++
        [⟨base_x + x, base_y + y, base_z + z⟩]
      if max_results ≤ results2.length then results2
      else scanSectionGo targets max_results base_x base_y base_z sec rest
        results2
    else scanSectionGo targets max_results base_x base_y base_z sec rest
      results

/-- Mirrors `WorldScanner::scan_chunk_section`, including the palette
prefilter. -/
def scan_chunk_section (results : List Pos3) (chunk_pos : ChunkPosM)
    (sec : SectionM) (section_y : ℤ) (req : ScanRequest)
    (world_min_y : ℤ) : List Pos3 :=
  if !palette_contains_target sec.palette req.block_states then results
  else
    scanSectionGo req.block_states req.max_results (chunk_pos.x * 16)
      (world_min_y + section_y * 16) (chunk_pos.z * 16) sec sectionCoords
      results

/-- The section loop of `scan_for_blocks` within one chunk, with its
post-section break. -/
def scanSectionsGo (chunk : ChunkM) (chunk_pos : ChunkPosM)
    (req : ScanRequest) (world_min_y : ℤ) :
    List ℤ → List Pos3 → List Pos3
  | [], results => results
  | section_y :: rest, results =>
    match (if section_y < 0 then none
           else chunk.sections.get? section_y.toNat) with
    | none => scanSectionsGo chunk chunk_pos req world_min_y rest results
    | some sec =>
      let results2 :=
        scan_chunk_section results chunk_pos sec section_y req world_min_y
      if req.max_results ≤ results2.length then results2
      else scanSectionsGo chunk chunk_pos req world_min_y rest results2

/-- The per-radius chunk loop of `scan_for_blocks`, with its post-chunk
break. -/
def scanChunksGo (inst : InstanceM) (req : ScanRequest)
    (y_sections : List ℤ) : List ChunkPosM → List Pos3 → List Pos3
  | [], results => results
  | chunk_pos :: rest, results =>
    let results2 :=
      match inst.chunks chunk_pos with
      | some chunk =>
        scanSectionsGo chunk chunk_pos req inst.min_y y_sections results
      | none => results
    if req.max_results ≤ results2.length then results2
    else scanChunksGo inst req y_sections rest results2

/-- The radius loop of `scan_for_blocks`, with its top-of-loop break. -/
def scanRadiiGo (inst : InstanceM) (req : ScanRequest)
    (y_sections : List ℤ) (start_chunk : ChunkPosM) :
    List ℕ → List Pos3 → List Pos3
  | [], results => results
  | radius :: rest, results =>
    if req.max_results ≤ results.length then results
    else
      scanRadiiGo inst req y_sections start_chunk rest
        (scanChunksGo inst req y_sections
          (spiral_chunk_positions start_chunk radius) results)

/-- Mirrors `WorldScanner::scan_for_blocks`.  The final Rust stable
`sort_by_key` on the Manhattan distance is modelled with
`List.insertionSort` (a Manhattan-sorted permutation; the claims proved do
not depend on the order of equal keys). -/
def scan_for_blocks (inst : InstanceM) (req : ScanRequest) : ScanResult :=
  let start_chunk : ChunkPosM :=
    ⟨Int.fdiv req.center_pos.x 16, Int.fdiv req.center_pos.z 16⟩
  let max_chunk_radius := (req.max_radius + 15) / 16
  let y_sections :=
    match req.y_level_threshold with
    | some threshold =>
      get_prioritized_y_sections req.center_pos.y threshold
    | none => defaultYSections inst
  let positions := scanRadiiGo inst req y_sections start_chunk
    (List.range (max_chunk_radius + 1)) []
  let positions_len := positions.length
  { positions := List.insertionSort
      (fun a b => Pos3.manhattan a req.center_pos ≤
        Pos3.manhattan b req.center_pos) positions,
    is_complete := decide (positions_len < req.max_results) }

lemma scanSectionGo_length_le (targets : List ℕ) (max_results : ℕ)
    (bx by0 bz : ℤ) (sec : SectionM) :
    ∀ (coords : List (ℕ × ℕ × ℕ)) (results : List Pos3),
      results.length < max_results →
      (scanSectionGo targets max_results bx by0 bz sec coords
        results).length ≤ max_results := by
  intro coords
  induction coords with
  | nil => intro results h; exact le_of_lt h
  | cons c rest ih =>
    intro results h
    obtain ⟨x, y, z⟩ := c
    rw [scanSectionGo]
    by_cases hc : targets.contains (sec.states x y z)
    · rw [if_pos hc]
      simp only
      by_cases h2 : max_results ≤
          (results ++ [(⟨bx + x, by0 + y, bz + z⟩ : Pos3)]).length
      · rw [if_pos h2]
        simp only [List.length_append, List.length_singleton]
        omega
      · rw [if_neg h2]
        exact ih _ (by omega)
    · rw [if_neg hc]
      exact ih _ h

lemma scan_chunk_section_length_le (results : List Pos3)
    (chunk_pos : ChunkPosM) (sec : SectionM) (section_y : ℤ)
    (req : ScanRequest) (world_min_y : ℤ)
    (h : results.length < req.max_results) :
    (scan_chunk_section results chunk_pos sec section_y req
      world_min_y).length ≤ req.max_results := by
  unfold scan_chunk_section
  by_cases hp : !palette_contains_target sec.palette req.block_states
  · rw [if_pos hp]; exact le_of_lt h
  · rw [if_neg hp]
    exact scanSectionGo_length_le _ _ _ _ _ _ _ _ h

lemma scanSectionsGo_length_le (chunk : ChunkM) (chunk_pos : ChunkPosM)
    (req : ScanRequest) (world_min_y : ℤ) :
    ∀ (ys : List ℤ) (results : List Pos3),
      results.length < req.max_results →
      (scanSectionsGo chunk chunk_pos req world_min_y ys
        results).length ≤ req.max_results := by
  intro ys
  induction ys with
  | nil => intro results h; exact le_of_lt h
  | cons sy rest ih =>
    intro results h
    rw [scanSectionsGo]
    cases (if sy < 0 then none else chunk.sections.get? sy.toNat) with
    | none => exact ih _ h
    | some sec =>
      simp only
      by_cases h2 : req.max_results ≤
          (scan_chunk_section results chunk_pos sec sy req
            world_min_y).length
      · rw [if_pos h2]
        exact scan_chunk_section_length_le _ _ _ _ _ _ h
      · rw [if_neg h2]
        exact ih _ (by omega)

lemma scanChunksGo_length_le (inst : InstanceM) (req : ScanRequest)
    (y_sections : List ℤ) :
    ∀ (cps : List ChunkPosM) (results : List Pos3),
      results.length < req.max_results →
      (scanChunksGo inst req y_sections cps results).length ≤
        req.max_results := by
  intro cps
  induction cps with
  | nil => intro results h; exact le_of_lt h
  | cons cp rest ih =>
    intro results h
    rw [scanChunksGo]
    have hlen : (match inst.chunks cp with
        | some chunk =>
          scanSectionsGo chunk cp req inst.min_y y_sections results
        | none => results).length ≤ req.max_results := by
      cases inst.chunks cp with
      | none => exact le_of_lt h
      | some chunk => exact scanSectionsGo_length_le _ _ _ _ _ _ h
    by_cases h2 : req.max_results ≤ (match inst.chunks cp with
        | some chunk =>
          scanSectionsGo chunk cp req inst.min_y y_sections results
        | none => results).length
    · rw [if_pos h2]; exact hlen
    · rw [if_neg h2]
      exact ih _ (by omega)

lemma scanRadiiGo_length_le (inst : InstanceM) (req : ScanRequest)
    (y_sections : List ℤ) (start_chunk : ChunkPosM) :
    ∀ (rs : List ℕ) (results : List Pos3),
      results.length ≤ req.max_results →
      (scanRadiiGo inst req y_sections start_chunk rs results).length ≤
        req.max_results := by
  intro rs
  induction rs with
  | nil => intro results h; exact h
  | cons r rest ih =>
    intro results h
    rw [scanRadiiGo]
    by_cases h2 : req.max_results ≤ results.length
    · rw [if_pos h2]; exact h
    · rw [if_neg h2]
      refine ih _ ?_
      exact scanChunksGo_length_le _ _ _ _ _ (by omega)

/-- C9: every scan result holds at most `max_results` positions, and the
positions are in nondecreasing Manhattan distance from the request's
centre. -/
theorem scan_for_blocks_capped_and_sorted (inst : InstanceM)
    (req : ScanRequest) :
    (scan_for_blocks inst req).positions.length ≤ req.max_results ∧
      (scan_for_blocks inst req).positions.Pairwise
        (fun a b => Pos3.manhattan a req.center_pos ≤
          Pos3.manhattan b req.center_pos) := by
  constructor
  · unfold scan_for_blocks
    simp only
    rw [(List.perm_insertionSort _ _).length_eq]
    exact scanRadiiGo_length_le _ _ _ _ _ _ (by simp)
  · unfold scan_for_blocks
    simp only
    haveI : IsTotal Pos3 (fun a b => Pos3.manhattan a req.center_pos ≤
        Pos3.manhattan b req.center_pos) := ⟨fun a b => le_total _ _⟩
    haveI : IsTrans Pos3 (fun a b => Pos3.manhattan a req.center_pos ≤
        Pos3.manhattan b req.center_pos) :=
      ⟨fun _ _ _ hab hbc => le_trans hab hbc⟩
    exact List.sorted_insertionSort _ _

end Azalea
